import Mathlib

/-!
Verification development for the imp019 baseball simulation.

The definitions below are a shallow embedding of the simulation core found in
src/game.rs, src/player.rs, src/stat.rs and src/schedule.rs.  Machine integers
are modelled as Nat (with explicit wrap-around at the width where the source
type could overflow), f64 sampling results become rational parameters, and
every fallible operation (a Rust unwrap or out-of-bounds index, i.e. a panic)
returns Option, with none standing for the panic.  All randomness in the source
flows through a single generator passed by mutable reference; here each random
draw is an explicit input (an oracle value), so a run of the model is a pure
function of its inputs exactly as a run of the source is a pure function of
the generator state and call order.
-/

namespace Imp019

abbrev PlayerId := Nat
abbrev TeamId := Nat

/-- Position enum from src/player.rs. -/
inductive Position
  | StartingPitcher
  | Catcher
  | FirstBase
  | SecondBase
  | ThirdBase
  | ShortStop
  | LeftField
  | CenterField
  | RightField
  | DesignatedHitter
  | LongRelief
  | ShortRelief
  | Setup
  | Closer
deriving DecidableEq, Repr, Inhabited

/-- Position::is_pitcher from src/player.rs. -/
def Position.is_pitcher : Position → Bool
  | .StartingPitcher | .LongRelief | .ShortRelief | .Setup | .Closer => true
  | _ => false

/-- Handedness enum from src/player.rs. -/
inductive Handedness
  | Left
  | Right
  | Switch
deriving DecidableEq, Repr, Inhabited

/-- Expect enum from src/player.rs: the plate-appearance outcome categories. -/
inductive Expect
  | Single
  | Double
  | Triple
  | HomeRun
  | Walk
  | HitByPitch
  | Strikeout
  | Out
  | Error
deriving DecidableEq, Repr, Inhabited

/-- Stat enum from src/stat.rs (the revision game.rs compiles against). -/
inductive Stat
  | G | Gs
  | B1b | B2b | B3b | Bhr | Bbb | Bibb | Bhbp | Bso | Bo | Br | Brbi
  | Bgidp | Bsb | Bcs
  | Bh | Bab | Bpa | Bavg | Bobp | Bslg
  | P1b | P2b | P3b | Phr | Pbb | Pibb | Phbp | Po | Pso | Pr | Per
  | Pw | Pl | Psv | Pbs | Phld | Pcg | Psho
  | Ph | Pbf | Pavg | Pobp | Pslg | Pera | Pwhip
  | Fpo | Fe
deriving DecidableEq, Repr, Inhabited

/-- Expect::to_batting_stat from src/player.rs (total in the revision used by
game.rs: an Error is scored as a batting out). -/
def Expect.to_batting_stat : Expect → Stat
  | .Single => .B1b
  | .Double => .B2b
  | .Triple => .B3b
  | .HomeRun => .Bhr
  | .Walk => .Bbb
  | .HitByPitch => .Bhbp
  | .Strikeout => .Bso
  | .Out => .Bo
  | .Error => .Bo

/-- Expect::to_pitching_stat from src/player.rs: an Error charges the pitcher
with nothing. -/
def Expect.to_pitching_stat : Expect → Option Stat
  | .Single => some .P1b
  | .Double => some .P2b
  | .Triple => some .P3b
  | .HomeRun => some .Phr
  | .Walk => some .Pbb
  | .HitByPitch => some .Phbp
  | .Strikeout => some .Pso
  | .Out => some .Po
  | .Error => none

/-- RunnerInfo from src/game.rs: who is on base, which pitcher let him on and
whether a run he scores is earned. -/
structure RunnerInfo where
  runner : PlayerId
  pitcher : PlayerId
  earned : Bool
deriving DecidableEq, Repr, Inhabited

/-- DefenseInfo from src/game.rs: one slot of the batting order. -/
structure DefenseInfo where
  player : PlayerId
  pos : Position
deriving DecidableEq, Repr, Inhabited

/-- PitcherRecord from src/game.rs: one archived pitching stint. -/
structure PitcherRecord where
  pitcher : PlayerId
  outs : Nat
  run_diff_in : Int
  run_diff_out : Int
deriving DecidableEq, Repr, Inhabited

/-- Wrap-around of a u8 quantity. -/
def wrap8 (n : Nat) : Nat := n % 256

/-- Wrap-around of a u32 quantity. -/
def wrap32 (n : Nat) : Nat := n % 4294967296

/-- The value of a u8 after an `as i8` cast. -/
def toI8 (n : Nat) : Int :=
  if n % 256 < 128 then ((n % 256 : Nat) : Int) else ((n % 256 : Nat) : Int) - 256

/-- Scoreboard from src/game.rs.  The four onbase cells (batter's box, first,
second, third base) are the fixed-size array onbase brick by brick.  u8/u32
counters are Nats that are wrapped at each update site. -/
structure Scoreboard where
  id : TeamId := 0
  r : Nat := 0
  h : Nat := 0
  e : Nat := 0
  onbase0 : Option RunnerInfo := none
  onbase1 : Option RunnerInfo := none
  onbase2 : Option RunnerInfo := none
  onbase3 : Option RunnerInfo := none
  runs_in : List RunnerInfo := []
  bo : List DefenseInfo := []
  ab : Nat := 0
  pitcher : PlayerId := 0
  pitches : Nat := 0
  pitcher_outs : Nat := 0
  pitcher_run_diff_in : Int := 0
  pitcher_record : List PitcherRecord := []
deriving DecidableEq, Repr, Inhabited

/-- Scoreboard::advance_onbase at start = 3: the runner on third scores. -/
def Scoreboard.advance3 (sb : Scoreboard) : Scoreboard :=
  match sb.onbase3 with
  | none => sb
  | some info => { sb with runs_in := sb.runs_in ++ [info], onbase3 := none }

/-- Scoreboard::advance_onbase at start = 2: first the recursive call at 3,
then the runner moves from second to third. -/
def Scoreboard.advance2 (sb : Scoreboard) : Scoreboard :=
  match sb.onbase2 with
  | none => sb
  | some info =>
    let sb3 := sb.advance3
    { sb3 with onbase3 := some info, onbase2 := none }

/-- Scoreboard::advance_onbase at start = 1. -/
def Scoreboard.advance1 (sb : Scoreboard) : Scoreboard :=
  match sb.onbase1 with
  | none => sb
  | some info =>
    let sb2 := sb.advance2
    { sb2 with onbase2 := some info, onbase1 := none }

/-- Scoreboard::advance_onbase at start = 0. -/
def Scoreboard.advance0 (sb : Scoreboard) : Scoreboard :=
  match sb.onbase0 with
  | none => sb
  | some info =>
    let sb1 := sb.advance1
    { sb1 with onbase1 := some info, onbase0 := none }

/-- Scoreboard::advance_onbase from src/game.rs, dispatching on the start
index; the source's recursion over start is unrolled into the four cell
functions above (start > 3, or an empty start cell, returns unchanged; the
empty-cell guard lives in each cell function). -/
def Scoreboard.advance_onbase (sb : Scoreboard) (start : Nat) : Scoreboard :=
  match start with
  | 0 => sb.advance0
  | 1 => sb.advance1
  | 2 => sb.advance2
  | 3 => sb.advance3
  | _ => sb

/-- Scoreboard::advance_batter from src/game.rs: put the batter in the
batter's box (cell 0) and advance cells 0, 1, ..., amt-1 in order. -/
def Scoreboard.advance_batter (sb : Scoreboard) (batter pitcher : PlayerId)
    (earned : Bool) (amt : Nat) : Scoreboard :=
  (List.range amt).foldl (fun s idx => s.advance_onbase idx)
    { sb with onbase0 := some ⟨batter, pitcher, earned⟩ }

/-- Scoreboard::record_runs from src/game.rs (r is a u8). -/
def Scoreboard.record_runs (sb : Scoreboard) : Scoreboard :=
  { sb with r := wrap8 (sb.r + sb.runs_in.length), runs_in := [] }

/-- Scoreboard::record_pitcher from src/game.rs: archive the current stint. -/
def Scoreboard.record_pitcher (sb : Scoreboard) (other_r : Int) : Scoreboard :=
  { sb with pitcher_record := sb.pitcher_record ++
      [⟨sb.pitcher, sb.pitcher_outs, sb.pitcher_run_diff_in, toI8 sb.r - other_r⟩] }

/-- Scoreboard::player_at_pos from src/game.rs; the source unwraps the lineup
lookup, so a missing position is a panic, modelled as none. -/
def Scoreboard.player_at_pos (sb : Scoreboard) (pos : Position) : Option PlayerId :=
  if pos.is_pitcher then some sb.pitcher
  else (sb.bo.find? (fun o => o.pos == pos)).map (fun o => o.player)

/-- The multiset of runners a scoreboard is accountable for: occupants of the
four onbase cells plus the runners queued in runs_in. -/
def runners (sb : Scoreboard) : Multiset RunnerInfo :=
  (sb.onbase0.toList : Multiset RunnerInfo) + (sb.onbase1.toList : Multiset RunnerInfo)
    + (sb.onbase2.toList : Multiset RunnerInfo) + (sb.onbase3.toList : Multiset RunnerInfo)
    + (sb.runs_in : Multiset RunnerInfo)

theorem advance3_onbase0 (sb : Scoreboard) : sb.advance3.onbase0 = sb.onbase0 := by
  cases h : sb.onbase3 <;> simp [Scoreboard.advance3, h]

theorem advance3_onbase1 (sb : Scoreboard) : sb.advance3.onbase1 = sb.onbase1 := by
  cases h : sb.onbase3 <;> simp [Scoreboard.advance3, h]

theorem advance3_onbase2 (sb : Scoreboard) : sb.advance3.onbase2 = sb.onbase2 := by
  cases h : sb.onbase3 <;> simp [Scoreboard.advance3, h]

theorem advance3_onbase3 (sb : Scoreboard) : sb.advance3.onbase3 = none := by
  cases h : sb.onbase3 <;> simp [Scoreboard.advance3, h]

theorem advance3_runners (sb : Scoreboard) : runners sb.advance3 = runners sb := by
  cases h : sb.onbase3 with
  | none => simp [Scoreboard.advance3, h]
  | some info =>
    simp only [Scoreboard.advance3, h, runners, Option.toList_none, Option.toList_some,
      ← Multiset.coe_add, Multiset.coe_nil]
    abel

theorem advance2_onbase0 (sb : Scoreboard) : sb.advance2.onbase0 = sb.onbase0 := by
  cases h : sb.onbase2 <;> simp [Scoreboard.advance2, h, advance3_onbase0]

theorem advance2_onbase1 (sb : Scoreboard) : sb.advance2.onbase1 = sb.onbase1 := by
  cases h : sb.onbase2 <;> simp [Scoreboard.advance2, h, advance3_onbase1]

theorem advance2_onbase2 (sb : Scoreboard) : sb.advance2.onbase2 = none := by
  cases h : sb.onbase2 <;> simp [Scoreboard.advance2, h]

theorem advance2_runners (sb : Scoreboard) : runners sb.advance2 = runners sb := by
  cases h : sb.onbase2 with
  | none => simp [Scoreboard.advance2, h]
  | some info =>
    have h3 := advance3_runners sb
    simp only [runners, advance3_onbase0, advance3_onbase1, advance3_onbase2,
      advance3_onbase3, h, Option.toList_none, Option.toList_some, Multiset.coe_nil] at h3
    simp only [Scoreboard.advance2, h, runners, Option.toList_none, Option.toList_some,
      advance3_onbase0, advance3_onbase1, Multiset.coe_nil]
    rw [← h3]
    abel

theorem advance1_onbase0 (sb : Scoreboard) : sb.advance1.onbase0 = sb.onbase0 := by
  cases h : sb.onbase1 <;> simp [Scoreboard.advance1, h, advance2_onbase0]

theorem advance1_onbase1 (sb : Scoreboard) : sb.advance1.onbase1 = none := by
  cases h : sb.onbase1 <;> simp [Scoreboard.advance1, h]

theorem advance1_runners (sb : Scoreboard) : runners sb.advance1 = runners sb := by
  cases h : sb.onbase1 with
  | none => simp [Scoreboard.advance1, h]
  | some info =>
    have h2 := advance2_runners sb
    simp only [runners, advance2_onbase0, advance2_onbase1, advance2_onbase2, h,
      Option.toList_none, Option.toList_some, Multiset.coe_nil] at h2
    simp only [Scoreboard.advance1, h, runners, Option.toList_none, Option.toList_some,
      advance2_onbase0, advance2_onbase2, Multiset.coe_nil]
    rw [← h2]
    abel

theorem advance0_runners (sb : Scoreboard) : runners sb.advance0 = runners sb := by
  cases h : sb.onbase0 with
  | none => simp [Scoreboard.advance0, h]
  | some info =>
    have h1 := advance1_runners sb
    simp only [runners, advance1_onbase0, advance1_onbase1, h,
      Option.toList_none, Option.toList_some, Multiset.coe_nil] at h1
    simp only [Scoreboard.advance0, h, runners, Option.toList_none, Option.toList_some,
      advance1_onbase0, advance1_onbase1, Multiset.coe_nil]
    rw [← h1]
    abel

theorem advance_onbase_runners (sb : Scoreboard) (start : Nat) :
    runners (sb.advance_onbase start) = runners sb := by
  match start with
  | 0 => exact advance0_runners sb
  | 1 => exact advance1_runners sb
  | 2 => exact advance2_runners sb
  | 3 => exact advance3_runners sb
  | (n + 4) => rfl

theorem foldl_advance_onbase_runners (l : List Nat) (sb : Scoreboard) :
    runners (l.foldl (fun s idx => s.advance_onbase idx) sb) = runners sb := by
  induction l generalizing sb with
  | nil => rfl
  | cons x xs ih => rw [List.foldl_cons, ih, advance_onbase_runners]

/-- Expect::Out arm of Game::sim (src/game.rs lines 502-530): the state change
applied to the batting scoreboard together with the outs charged for the plate
appearance (the source's add_outs). -/
def out_advance (sb : Scoreboard) (outs : Nat) (target : Position) : Scoreboard × Nat :=
  if outs < 2 then
    match target with
    | .LeftField | .CenterField | .RightField => (sb.advance_onbase 3, 1)
    | .Catcher | .StartingPitcher =>
      (if sb.onbase3 = none then sb.advance_onbase 1 else sb, 1)
    | _ =>
      if sb.onbase1 ≠ none then ({ sb with onbase1 := none }, 2) else (sb, 1)
  else (sb, 1)

/-- Expect::Single arm of Game::sim (src/game.rs lines 452-463): on a single
to right field the cells 3 and then 2 are advanced first; then the hit is
counted and the batter advances one base. -/
def single_arm (sb : Scoreboard) (batter pitcher : PlayerId) (earned : Bool)
    (target : Position) : Scoreboard :=
  let sbA := if target = Position.RightField
    then (sb.advance_onbase 3).advance_onbase 2 else sb
  Scoreboard.advance_batter { sbA with h := wrap8 (sbA.h + 1) } batter pitcher earned 1

/-- A scoreboard whose only runner occupies second base (cell 2). -/
def c4_sb : Scoreboard := { onbase2 := some ⟨4, 0, true⟩ }

/-- C10 counterexample: a scoreboard whose batter's box (cell 0) is occupied. -/
def c10_sb : Scoreboard := { onbase0 := some ⟨5, 0, false⟩ }

/-- C10: the claim quantifies over every Scoreboard state, but advance_batter
overwrites cell 0 unconditionally; starting from a state whose cell 0 is
occupied, that occupant is dropped, so the resulting runner multiset is not
the previous runners plus the batter. -/
theorem c10_counterexample :
    ¬ (runners (c10_sb.advance_batter 7 2 true 1)
        = runners c10_sb + {(⟨7, 2, true⟩ : RunnerInfo)}) := by decide

/-- C10 (amended): advance_onbase preserves the multiset of runners (onbase
cells 0-3 plus runs_in) unconditionally, and advance_batter with 1 <= amt <= 4
adds exactly the new batter to that multiset provided the batter's box
(cell 0) is empty beforehand; an occupant of cell 0 would be overwritten. -/
theorem c10_runner_conservation :
    (∀ (sb : Scoreboard) (start : Nat), runners (sb.advance_onbase start) = runners sb) ∧
    (∀ (sb : Scoreboard) (batter pitcher : PlayerId) (earned : Bool) (amt : Nat),
      1 ≤ amt → amt ≤ 4 → sb.onbase0 = none →
      runners (sb.advance_batter batter pitcher earned amt)
        = runners sb + {⟨batter, pitcher, earned⟩}) := by
  refine ⟨advance_onbase_runners, ?_⟩
  intro sb batter pitcher earned amt _ _ h0
  unfold Scoreboard.advance_batter
  rw [foldl_advance_onbase_runners]
  simp only [runners, h0, Option.toList_none, Option.toList_some,
    Multiset.coe_nil, Multiset.coe_singleton]
  abel

/-- C10 witness: the conservation statement applied at a concrete scoreboard
with a runner on first and an empty batter's box. -/
theorem c10_runner_conservation_witness :
    (1:Nat) ≤ 1 ∧ (1:Nat) ≤ 4 ∧
    runners (Scoreboard.advance_batter { onbase1 := some ⟨3, 1, true⟩ } 7 2 false 1)
      = runners ({ onbase1 := some ⟨3, 1, true⟩ } : Scoreboard) + {⟨7, 2, false⟩} :=
  ⟨by decide, by decide,
    c10_runner_conservation.2 { onbase1 := some ⟨3, 1, true⟩ } 7 2 false 1
      (by decide) (by decide) rfl⟩

/-- C4 counterexample: with fewer than two outs, an infield target (second
base) and a runner on second base only, the source charges a single out and
leaves the runner on second base where he is; the claim predicts that the
runner on second is removed and a second out charged. -/
theorem c4_counterexample :
    out_advance c4_sb 0 Position.SecondBase = (c4_sb, 1) ∧
    (out_advance c4_sb 0 Position.SecondBase).1.onbase2 = some ⟨4, 0, true⟩ := by
  decide

/-- C4 (amended): in the non-error Out arm with fewer than 2 outs and a
fielding target that is neither an outfield position nor the catcher nor the
starting pitcher, a runner occupying first base (cell 1) is removed and a
second out is charged. -/
theorem c4_out_fc_removes_first (sb : Scoreboard) (outs : Nat) (target : Position)
    (info : RunnerInfo)
    (houts : outs < 2)
    (ht : target ≠ Position.LeftField ∧ target ≠ Position.CenterField ∧
      target ≠ Position.RightField ∧ target ≠ Position.Catcher ∧
      target ≠ Position.StartingPitcher)
    (h1 : sb.onbase1 = some info) :
    out_advance sb outs target = ({ sb with onbase1 := none }, 2) := by
  obtain ⟨hLF, hCF, hRF, hC, hSP⟩ := ht
  unfold out_advance
  rw [if_pos houts]
  cases target <;> simp_all

/-- C4 witness: the amended Out-arm statement applied at a concrete state with
a runner on first and a shortstop target. -/
theorem c4_out_fc_removes_first_witness :
    (1:Nat) < 2 ∧
    out_advance { onbase1 := some ⟨8, 2, true⟩ } 1 Position.ShortStop
      = ({ onbase1 := none }, 2) :=
  ⟨by decide,
    c4_out_fc_removes_first { onbase1 := some ⟨8, 2, true⟩ } 1 Position.ShortStop
      ⟨8, 2, true⟩ (by decide) (by decide) rfl⟩

/-- A scoreboard with runners on second and third base. -/
def c5_sb : Scoreboard := { onbase2 := some ⟨2, 0, true⟩, onbase3 := some ⟨3, 0, true⟩ }

/-- C5 counterexample: on a single fielded by right field with runners on
second and third base, only the runner from third is queued as a run; the
runner from second is left standing on third base, not sent home as the
claim states. -/
theorem c5_counterexample :
    (single_arm c5_sb 9 1 true Position.RightField).runs_in = [⟨3, 0, true⟩] ∧
    (single_arm c5_sb 9 1 true Position.RightField).onbase3 = some ⟨2, 0, true⟩ ∧
    (⟨2, 0, true⟩ : RunnerInfo) ∉ (single_arm c5_sb 9 1 true Position.RightField).runs_in := by
  decide

/-- C5 (amended): on a single whose target is right field, with second and
third base occupied, the runner from third is queued as a run and the runner
from second advances only to third base, before the batter and forced runners
advance. -/
theorem c5_single_right_field (sb : Scoreboard) (batter pitcher : PlayerId)
    (earned : Bool) (r2 r3 : RunnerInfo)
    (h2 : sb.onbase2 = some r2) (h3 : sb.onbase3 = some r3) :
    (single_arm sb batter pitcher earned Position.RightField).runs_in
      = sb.runs_in ++ [r3] ∧
    (single_arm sb batter pitcher earned Position.RightField).onbase3 = some r2 := by
  have hr : List.range 1 = [0] := rfl
  cases h1 : sb.onbase1 <;>
    simp [single_arm, hr, Scoreboard.advance_batter, Scoreboard.advance_onbase,
      Scoreboard.advance0, Scoreboard.advance1, Scoreboard.advance2,
      Scoreboard.advance3, h1, h2, h3]

/-- C5 witness: the amended single-to-right statement applied at a concrete
scoreboard with runners on second and third. -/
theorem c5_single_right_field_witness :
    ({ onbase2 := some ⟨21, 5, false⟩, onbase3 := some ⟨22, 6, true⟩ }
        : Scoreboard).onbase2 = some ⟨21, 5, false⟩ ∧
    (single_arm { onbase2 := some ⟨21, 5, false⟩, onbase3 := some ⟨22, 6, true⟩ }
        9 1 true Position.RightField).runs_in = [⟨22, 6, true⟩] ∧
    (single_arm { onbase2 := some ⟨21, 5, false⟩, onbase3 := some ⟨22, 6, true⟩ }
        9 1 true Position.RightField).onbase3 = some ⟨21, 5, false⟩ := by
  have h := c5_single_right_field
    { onbase2 := some ⟨21, 5, false⟩, onbase3 := some ⟨22, 6, true⟩ }
    9 1 true ⟨21, 5, false⟩ ⟨22, 6, true⟩ rfl rfl
  exact ⟨rfl, h.1, h.2⟩

/-- InningHalf enum from src/game.rs. -/
inductive InningHalf
  | Top
  | Middle
  | Bottom
  | End
deriving DecidableEq, Repr, Inhabited

/-- Inning from src/game.rs (number is a u8, wrapped where incremented). -/
structure Inning where
  number : Nat
  half : InningHalf
deriving DecidableEq, Repr, Inhabited

/-- GameLogEvent from src/game.rs: one play-by-play entry. -/
structure GameLogEvent where
  player : PlayerId
  event : Stat
  target : Option Position
deriving DecidableEq, Repr, Inhabited

/-- GameLog from src/game.rs. -/
abbrev GameLog := List GameLogEvent

/-- The state mutated by the while loop of Game::sim: the Game's two
scoreboards plus the loop-local inning, outs, virtual_outs and boxscore. -/
structure SimState where
  home : Scoreboard
  away : Scoreboard
  inning : Inning
  outs : Nat
  virtual_outs : Nat
  boxscore : GameLog
deriving DecidableEq, Repr, Inhabited

/-- The random draws consumed by one plate-appearance iteration of Game::sim,
given as oracle values: sub is the reliever chosen by sub_pitcher when it
substitutes (its decision depends on the rosters and the rng), result is the
outcome of get_expected_pa followed by check_for_error, target is the fielding
position sampled by determine_spray, and pitches is the rounded gen_gamma
pitch-count draw. -/
structure SimInput where
  sub : Option PlayerId
  result : Expect
  target : Position
  pitches : Nat
deriving DecidableEq, Repr, Inhabited

/-- Game::is_complete from src/game.rs lines 159-161. -/
def is_complete (st : SimState) : Prop :=
  9 ≤ st.inning.number ∧
    ((st.inning.half ≠ InningHalf.Top ∧ st.away.r < st.home.r) ∨
      (st.inning.half = InningHalf.End ∧ st.home.r < st.away.r))

instance (st : SimState) : Decidable (is_complete st) := by
  unfold is_complete; infer_instance

/-- Game::is_away_ab from src/game.rs. -/
def is_away_ab (inning : Inning) : Bool :=
  inning.half == InningHalf.Top || inning.half == InningHalf.Middle

/-- The Middle transition tick of Game::sim: clear the home onbase cells,
reset the out counters and move to the bottom half. -/
def middle_tick (st : SimState) : SimState :=
  { st with
      home := { st.home with onbase0 := none, onbase1 := none,
                             onbase2 := none, onbase3 := none },
      outs := 0, virtual_outs := 0,
      inning := { st.inning with half := InningHalf.Bottom } }

/-- The End transition tick of Game::sim: clear the away onbase cells, reset
the out counters, bump the inning number (a u8) and return to the top half. -/
def end_tick (st : SimState) : SimState :=
  { st with
      away := { st.away with onbase0 := none, onbase1 := none,
                             onbase2 := none, onbase3 := none },
      outs := 0, virtual_outs := 0,
      inning := { number := wrap8 (st.inning.number + 1), half := InningHalf.Top } }

/-- The bookkeeping of Game::sub_pitcher when a substitute was chosen: archive
the outgoing stint, install the new pitcher with reset counters and the
current run differential, and log his appearance. -/
def apply_sub (pit : Scoreboard) (bat_r pit_r : Int) : Option PlayerId →
    Scoreboard × GameLog
  | none => (pit, [])
  | some new_pitcher =>
    ({ pit.record_pitcher bat_r with
        pitcher := new_pitcher, pitches := 0, pitcher_outs := 0,
        pitcher_run_diff_in := pit_r - bat_r },
      [⟨new_pitcher, Stat.G, none⟩])

/-- One plate-appearance iteration of the Game::sim loop (src/game.rs lines
425-573), for a state whose half is Top or Bottom.  Returns none exactly when
the source panics (player_at_pos finds no fielder at the target position). -/
def pa_tick (st : SimState) (inp : SimInput) : Option SimState :=
  let earned := decide (st.virtual_outs < 3)
  let awayAb := is_away_ab st.inning
  let bat := if awayAb then st.away else st.home
  let pit0 := if awayAb then st.home else st.away
  let bat_r := toI8 bat.r
  let pit_r := toI8 pit0.r
  let subbed := apply_sub pit0 bat_r pit_r inp.sub
  let pit := subbed.1
  let pitcher_id := pit.pitcher
  let batter_id := (bat.bo.getD bat.ab default).player
  match pit.player_at_pos inp.target with
  | none => none
  | some fielder_id =>
    let pitches0 := max inp.pitches 1
    let armed : Scoreboard × Nat × Option Position × Nat × GameLog :=
      match inp.result with
      | .Single =>
        (single_arm bat batter_id pitcher_id earned inp.target,
          pitches0, some inp.target, 0, [])
      | .Double =>
        (Scoreboard.advance_batter { bat with h := wrap8 (bat.h + 1) }
            batter_id pitcher_id earned 2, pitches0, some inp.target, 0, [])
      | .Triple =>
        (Scoreboard.advance_batter { bat with h := wrap8 (bat.h + 1) }
            batter_id pitcher_id earned 3, pitches0, some inp.target, 0, [])
      | .HomeRun =>
        (Scoreboard.advance_batter { bat with h := wrap8 (bat.h + 1) }
            batter_id pitcher_id earned 4, pitches0, some inp.target, 0, [])
      | .Walk =>
        (bat.advance_batter batter_id pitcher_id earned 1,
          max pitches0 4, none, 0, [])
      | .HitByPitch =>
        (bat.advance_batter batter_id pitcher_id earned 1,
          pitches0, none, 0, [])
      | .Error =>
        (Scoreboard.advance_batter { bat with e := wrap8 (bat.e + 1) }
            batter_id pitcher_id false 1,
          pitches0, some inp.target, 0, [⟨fielder_id, Stat.Fe, none⟩])
      | .Strikeout =>
        (bat, max pitches0 3, none, 1, [])
      | .Out =>
        let oa := out_advance bat st.outs inp.target
        (oa.1, pitches0, some inp.target, oa.2, [⟨fielder_id, Stat.Fpo, none⟩])
    let bat2 := armed.1
    let pitches1 := armed.2.1
    let box_target := armed.2.2.1
    let result_outs := armed.2.2.2.1
    let arm_events := armed.2.2.2.2
    let batting_event : GameLogEvent := ⟨batter_id, inp.result.to_batting_stat, box_target⟩
    let rbi_events : GameLog :=
      if inp.result ≠ Expect.Error
        then bat2.runs_in.map (fun _ => ⟨batter_id, Stat.Brbi, none⟩) else []
    let pitching_events : GameLog :=
      match inp.result.to_pitching_stat with
      | some s => [⟨pitcher_id, s, none⟩]
      | none => []
    let runner_events : GameLog :=
      bat2.runs_in.flatMap (fun runner =>
        [⟨runner.runner, Stat.Br, none⟩,
          ⟨runner.pitcher, if runner.earned then Stat.Per else Stat.Pr, none⟩])
    let bat3 := { bat2.record_runs with ab := (bat2.ab + 1) % 9 }
    let pit2 := { pit with
        pitches := wrap32 (pit.pitches + pitches1),
        pitcher_outs := wrap8 (pit.pitcher_outs + result_outs) }
    let outs' := st.outs + result_outs
    let virtual' := st.virtual_outs + result_outs
      + (if inp.result = Expect.Error then 1 else 0)
    let half' := if 3 ≤ outs' then
        (if st.inning.half = InningHalf.Top then InningHalf.Middle
          else if st.inning.half = InningHalf.Bottom then InningHalf.End
          else st.inning.half)
      else st.inning.half
    some { home := if awayAb then pit2 else bat3,
           away := if awayAb then bat3 else pit2,
           inning := { st.inning with half := half' },
           outs := outs', virtual_outs := virtual',
           boxscore := st.boxscore ++ subbed.2 ++ arm_events ++ [batting_event]
             ++ rbi_events ++ pitching_events ++ runner_events }

/-- The while loop of Game::sim (src/game.rs lines 409-574), fuelled: the
source loop is not structurally guaranteed to terminate (a tied game keeps
playing), so the model takes a fuel bound and a finite oracle stream and
returns none when either runs out or a tick panics. -/
def sim_loop : Nat → SimState → List SimInput → Option SimState
  | 0, _, _ => none
  | fuel + 1, st, inputs =>
    if is_complete st then some st
    else if st.inning.half = InningHalf.Middle then
      sim_loop fuel (middle_tick st) inputs
    else if st.inning.half = InningHalf.End then
      sim_loop fuel (end_tick st) inputs
    else
      match inputs with
      | [] => none
      | inp :: rest =>
        match pa_tick st inp with
        | none => none
        | some st' => sim_loop fuel st' rest

/-- C1: whenever the Game::sim loop returns a final state, that state
satisfies the terminal predicate is_complete (inning at least 9, and either
the half is past Top with the home side ahead, or the half is End with the
away side ahead), hence the run totals are unequal; moreover a state already
satisfying the predicate is returned untouched, so no plate appearance is
played past the first terminal state. -/
theorem c1_complete_no_ties (fuel : Nat) (st st' : SimState) (inputs : List SimInput)
    (hrun : sim_loop fuel st inputs = some st') :
    is_complete st' ∧ st'.home.r ≠ st'.away.r ∧ (is_complete st → st' = st) := by
  induction fuel generalizing st inputs with
  | zero => simp [sim_loop] at hrun
  | succ n ih =>
    simp only [sim_loop] at hrun
    by_cases hc : is_complete st
    · rw [if_pos hc] at hrun
      obtain rfl : st = st' := Option.some.inj hrun
      refine ⟨hc, ?_, fun _ => rfl⟩
      rcases hc.2 with ⟨_, hlt⟩ | ⟨_, hlt⟩
      · exact ne_of_gt hlt
      · exact ne_of_lt hlt
    · rw [if_neg hc] at hrun
      by_cases hm : st.inning.half = InningHalf.Middle
      · rw [if_pos hm] at hrun
        obtain ⟨h1, h2, _⟩ := ih _ _ hrun
        exact ⟨h1, h2, fun h => absurd h hc⟩
      · rw [if_neg hm] at hrun
        by_cases he : st.inning.half = InningHalf.End
        · rw [if_pos he] at hrun
          obtain ⟨h1, h2, _⟩ := ih _ _ hrun
          exact ⟨h1, h2, fun h => absurd h hc⟩
        · rw [if_neg he] at hrun
          cases inputs with
          | nil => simp at hrun
          | cons inp rest =>
            cases hp : pa_tick st inp with
            | none => simp only [hp] at hrun; exact absurd hrun (by simp)
            | some st2 =>
              simp only [hp] at hrun
              obtain ⟨h1, h2, _⟩ := ih _ _ hrun
              exact ⟨h1, h2, fun h => absurd h hc⟩

/-- A concrete terminal state: bottom of the 9th finished with the away side
ahead one run to nil. -/
def c1_st : SimState :=
  { home := {}, away := { r := 1 }, inning := ⟨9, InningHalf.End⟩,
    outs := 0, virtual_outs := 0, boxscore := [] }

/-- C1 witness: the loop run from the concrete terminal state returns it at
once, and the theorem yields its completeness and distinct run totals. -/
theorem c1_complete_no_ties_witness :
    sim_loop 1 c1_st [] = some c1_st ∧
    (is_complete c1_st ∧ c1_st.home.r ≠ c1_st.away.r ∧
      (is_complete c1_st → c1_st = c1_st)) :=
  ⟨by decide, c1_complete_no_ties 1 c1_st c1_st [] (by decide)⟩

/-- A mid-game state used to exercise determinism: top of the first, nobody
out, empty boxscore. -/
def c9_st : SimState :=
  { home := { bo := [⟨11, Position.Catcher⟩], pitcher := 19 },
    away := { bo := [⟨21, Position.Catcher⟩], pitcher := 29 },
    inning := ⟨1, InningHalf.Top⟩, outs := 0, virtual_outs := 0, boxscore := [] }

/-- C9: the Game::sim loop is a pure function of the initial state and of the
oracle stream that stands for the shared pseudo-random generator (the source
threads one generator by mutable reference through every sampling call), so
two runs from the same state whose generators produce the same draw sequence
yield identical play-by-play logs. -/
theorem c9_determinism (fuel : Nat) (st : SimState) (i1 i2 : List SimInput)
    (h : i1 = i2) :
    (sim_loop fuel st i1).map SimState.boxscore
      = (sim_loop fuel st i2).map SimState.boxscore := by
  rw [h]

/-- C9 witness: two identical draw streams, identical logs. -/
theorem c9_determinism_witness :
    ([(⟨none, Expect.Strikeout, Position.CenterField, 3⟩ : SimInput)]
      = [(⟨none, Expect.Strikeout, Position.CenterField, 3⟩ : SimInput)]) ∧
    (sim_loop 2 c9_st [⟨none, Expect.Strikeout, Position.CenterField, 3⟩]).map
        SimState.boxscore
      = (sim_loop 2 c9_st [⟨none, Expect.Strikeout, Position.CenterField, 3⟩]).map
        SimState.boxscore :=
  ⟨rfl, c9_determinism 2 c9_st _ _ rfl⟩

/-- The backward index walk of Game::record_wls, traversing the stint list
from the last entry toward the first and keeping the pitcher of the most
recent stint seen so far while its exit run differential satisfies pred; it
stops at the first stint that fails pred.  The source walks indices downward;
here the reversed record list is walked front to back. -/
def wls_walk (pred : Int → Bool) : List PitcherRecord → Option PlayerId → Option PlayerId
  | [], acc => acc
  | rec :: rest, acc =>
    if pred rec.run_diff_out then wls_walk pred rest (some rec.pitcher) else acc

/-- The winner determined by Game::record_wls: the earliest pitcher of the
maximal suffix of stints whose exit differential is positive. -/
def winner_of (records : List PitcherRecord) : Option PlayerId :=
  wls_walk (fun d => 0 < d) records.reverse none

/-- The loser determined by Game::record_wls (symmetric walk over negative
exit differentials). -/
def loser_of (records : List PitcherRecord) : Option PlayerId :=
  wls_walk (fun d => d < 0) records.reverse none

/-- The hold loop of Game::record_wls: indices last-1 down to 1, stopping at
the first stint whose pitcher is the winner or whose entry differential
exceeds 3; each visited stint logs a Hold. -/
def hold_events (records : List PitcherRecord) (w : PlayerId) : GameLog :=
  (((records.drop 1).dropLast).reverse.takeWhile
      (fun rec => decide (rec.pitcher ≠ w) && decide (rec.run_diff_in ≤ 3))).map
    (fun rec => ⟨rec.pitcher, Stat.Phld, none⟩)

/-- Game::record_wls from src/game.rs lines 329-387, as the list of stat
events it pushes for one side's stint list (oppo_r is the opponent's final
run total).  The source indexes records.len() - 1, which panics on an empty
list; Game::sim archives the live stint first, so the list is never empty
there, and the empty case is modelled as an empty log. -/
def record_wls (records : List PitcherRecord) (oppo_r : Int) : GameLog :=
  match records.getLast? with
  | none => []
  | some last_pr =>
    let win_events : GameLog :=
      match winner_of records with
      | none => []
      | some w =>
        [⟨w, Stat.Pw, none⟩]
          ++ (if records.length = 1 then
                [⟨w, Stat.Pcg, none⟩]
                  ++ (if oppo_r = 0 then [⟨w, Stat.Psho, none⟩] else [])
              else [])
          ++ (if (last_pr.run_diff_in ≤ 3 ∨ 9 ≤ last_pr.outs) ∧ last_pr.pitcher ≠ w
              then [⟨last_pr.pitcher, Stat.Psv, none⟩] else [])
          ++ (if 2 ≤ records.length then hold_events records w else [])
    let lose_events : GameLog :=
      match loser_of records with
      | none => []
      | some l =>
        [⟨l, Stat.Pl, none⟩]
          ++ (if records.length = 1 then [⟨l, Stat.Pcg, none⟩] else [])
    win_events ++ lose_events

theorem psv_not_mem_hold_events (records : List PitcherRecord) (w p : PlayerId) :
    (⟨p, Stat.Psv, none⟩ : GameLogEvent) ∉ hold_events records w := by
  simp [hold_events]

/-- C6: when the backward stint walk yields a winner w, the Save is logged
for a pitcher p exactly when p is the pitcher of the last stint, differs from
the winner, and either entered with a run differential of at most 3 or
recorded at least 9 outs. -/
theorem c6_save_rule (records : List PitcherRecord) (oppo_r : Int) (w p : PlayerId)
    (hne : records ≠ []) (hw : winner_of records = some w) :
    (⟨p, Stat.Psv, none⟩ : GameLogEvent) ∈ record_wls records oppo_r ↔
      (p = (records.getLast hne).pitcher ∧ p ≠ w ∧
        ((records.getLast hne).run_diff_in ≤ 3 ∨ 9 ≤ (records.getLast hne).outs)) := by
  have hl : records.getLast? = some (records.getLast hne) :=
    List.getLast?_eq_getLast records hne
  unfold record_wls
  rw [hl, hw]
  have hhold := psv_not_mem_hold_events records w p
  rcases hlo : loser_of records with _ | l <;>
    by_cases hsave : ((records.getLast hne).run_diff_in ≤ 3 ∨
        9 ≤ (records.getLast hne).outs) ∧ (records.getLast hne).pitcher ≠ w <;>
      simp [hsave, hhold] <;>
        first
          | (intro h; rw [h]; exact hsave.2)
          | (intro h1 h2
             have hc : ¬((records.getLast hne).run_diff_in ≤ 3 ∨
                 9 ≤ (records.getLast hne).outs) :=
               fun hcond => hsave ⟨hcond, by rw [← h1]; exact h2⟩
             omega)

/-- A two-stint side: the starter (pitcher 1) hands a winning game to a
closer (pitcher 2) who enters with a 4-run lead and records 3 outs. -/
def c6_records : List PitcherRecord := [⟨1, 18, 0, 2⟩, ⟨2, 3, 4, 2⟩]

/-- C6 witness: the save rule applied to the concrete side above; pitcher 1
wins, and the closer who entered with a 4-run lead and recorded only 3 outs
gets no Save. -/
theorem c6_save_rule_witness :
    c6_records ≠ [] ∧ winner_of c6_records = some 1 ∧
    (⟨2, Stat.Psv, none⟩ : GameLogEvent) ∉ record_wls c6_records 0 := by
  refine ⟨by decide, by decide, fun hmem => ?_⟩
  have h := (c6_save_rule c6_records 0 1 2 (by decide) (by decide)).mp hmem
  revert h
  decide

/-- ExpectRaw from src/player.rs: the raw sampled rates fed to
Player::generate_expect.  The source works in f64; the model uses exact
rationals, the idealised arithmetic the floating tolerance refers to. -/
structure ExpectRaw where
  target_obp : ℚ
  h1b : ℚ
  h2b : ℚ
  h3b : ℚ
  hr : ℚ
  bb : ℚ
  hbp : ℚ
  so : ℚ
  e : ℚ

/-- Player::generate_expect from src/player.rs lines 435-460: rescale the six
on-base categories proportionally so they sum to target_obp, keep the
strikeout rate, set the out rate to the complement, and carry the error rate
as the separate ninth entry. -/
def generate_expect (p : ExpectRaw) : Expect → ℚ :=
  let obp_total := p.h1b + p.h2b + p.h3b + p.hr + p.bb + p.hbp
  fun
  | .Single => p.h1b / obp_total * p.target_obp
  | .Double => p.h2b / obp_total * p.target_obp
  | .Triple => p.h3b / obp_total * p.target_obp
  | .HomeRun => p.hr / obp_total * p.target_obp
  | .Walk => p.bb / obp_total * p.target_obp
  | .HitByPitch => p.hbp / obp_total * p.target_obp
  | .Strikeout => p.so
  | .Out => 1 - p.target_obp - p.so
  | .Error => p.e

/-- Player::generate_bat_expect from src/player.rs lines 462-487, with the
random draws as parameters: target_obp and so are Normal draws, h1b, h2b, t3,
hr, bb, hbp are Gamma draws (strictly positive support), the triple rate is
t3 * h2b, and e0 is the Normal draw whose clamped complement is the error
rate. -/
def generate_bat_expect (target_obp h1b h2b t3 hr bb hbp so e0 : ℚ) : Expect → ℚ :=
  generate_expect ⟨target_obp, h1b, h2b, t3 * h2b, hr, bb, hbp, so, 1 - min (max e0 0) 1⟩

/-- Player::generate_pit_expect from src/player.rs lines 489-513, with the
random draws as parameters: h is the Gamma hit-rate draw, n2 and n3 the
Normal fractions carving it into doubles and triples, h1b the remainder,
hr, bb, hbp Gamma draws, so a Normal draw, and no error rate. -/
def generate_pit_expect (target_obp h n2 n3 hr bb hbp so : ℚ) : Expect → ℚ :=
  generate_expect ⟨target_obp, h - n2 * h - n3 * (n2 * h), n2 * h, n3 * (n2 * h),
    hr, bb, hbp, so, 0⟩

/-- The sum of the probabilities of the eight mutually exclusive
plate-appearance result categories (the ninth entry, Error, is the separate
error-susceptibility rate, not a result category). -/
def expect_sum (m : Expect → ℚ) : ℚ :=
  m .Single + m .Double + m .Triple + m .HomeRun + m .Walk + m .HitByPitch
    + m .Strikeout + m .Out

theorem expect_sum_generate (p : ExpectRaw)
    (hz : p.h1b + p.h2b + p.h3b + p.hr + p.bb + p.hbp ≠ 0) :
    expect_sum (generate_expect p) = 1 := by
  simp only [expect_sum, generate_expect]
  field_simp
  ring

/-- C2: for every admissible tuple of random draws (the Gamma draws are
strictly positive, as their distributions' support demands), the batting and
pitching outcome maps produced at player creation assign probabilities
summing to exactly 1 over the eight mutually exclusive result categories.
Player::new builds its four maps (batting and pitching, each versus left-
and right-handed opponents) by two independent calls of each generator, so
the statement covers all four. -/
theorem c2_expect_maps_sum_one
    (target_obp h1b h2b t3 hr bb hbp so e0 : ℚ)
    (pt ph pn2 pn3 phr pbb phbp pso : ℚ)
    (hb1 : 0 < h1b) (hb2 : 0 < h2b) (hb3 : 0 < t3) (hb4 : 0 < hr)
    (hb5 : 0 < bb) (hb6 : 0 < hbp)
    (hp1 : 0 < ph) (hp2 : 0 < phr) (hp3 : 0 < pbb) (hp4 : 0 < phbp) :
    expect_sum (generate_bat_expect target_obp h1b h2b t3 hr bb hbp so e0) = 1 ∧
    expect_sum (generate_pit_expect pt ph pn2 pn3 phr pbb phbp pso) = 1 := by
  constructor
  · apply expect_sum_generate
    have ht : 0 < t3 * h2b := mul_pos hb3 hb2
    dsimp only
    nlinarith
  · apply expect_sum_generate
    have hsum : (ph - pn2 * ph - pn3 * (pn2 * ph)) + pn2 * ph + pn3 * (pn2 * ph)
        + phr + pbb + phbp = ph + phr + pbb + phbp := by ring
    dsimp only
    rw [hsum]
    positivity

/-- C2 witness: the sum property at one concrete draw tuple for each map. -/
theorem c2_expect_maps_sum_one_witness :
    (0:ℚ) < 1 ∧
    expect_sum (generate_bat_expect (32/100) 1 1 1 1 1 1 (19/100) (97/100)) = 1 ∧
    expect_sum (generate_pit_expect (32/100) 2 (1/3) (1/10) 1 1 1 (19/100)) = 1 := by
  have h := c2_expect_maps_sum_one (32/100) 1 1 1 1 1 1 (19/100) (97/100)
    (32/100) 2 (1/3) (1/10) 1 1 1 (19/100)
    (by norm_num) (by norm_num) (by norm_num) (by norm_num) (by norm_num)
    (by norm_num) (by norm_num) (by norm_num) (by norm_num) (by norm_num)
  exact ⟨by norm_num, h.1, h.2⟩

/-- The choose_weighted call of the rand crate as used by the source: draw an
item with probability proportional to its integer weight.  The pick argument
is the generator draw; when every weight is zero (or the list is empty) the
crate returns an error, which the source unwraps - modelled as none (the
panic). -/
def choose_weighted {α : Type} (items : List (α × Nat)) (pick : Nat) : Option α :=
  let total := (items.map (fun o => o.2)).sum
  if total = 0 then none
  else
    let rec go : List (α × Nat) → Nat → Option α
      | [], _ => none
      | (a, wgt) :: rest, n => if n < wgt then some a else go rest (n - wgt)
    go items (pick % total)

/-- SprayChart from src/player.rs: per outcome category, an optional weight
table over fielding positions (a HashMap of HashMaps; absence of a category
is none). -/
def SprayChart : Type := Expect → Option (List (Position × Nat))

/-- The merged chart of Player::determine_spray:
bat.iter().chain(pit).collect() lets a pitcher entry override a batter entry
for the same category. -/
def merged_spray (bat pit : SprayChart) (expect : Expect) :
    Option (List (Position × Nat)) :=
  match pit expect with
  | some m => some m
  | none => bat expect

/-- Player::determine_spray from src/player.rs lines 635-645: weighted draw
over the merged table for the category, unwrapped (none models the panic);
only an absent category falls back to center field. -/
def determine_spray (bat pit : SprayChart) (expect : Expect) (pick : Nat) :
    Option Position :=
  match merged_spray bat pit expect with
  | some expect_spray => choose_weighted expect_spray pick
  | none => some Position.CenterField

/-- Game::get_expected_pa from src/game.rs lines 228-236, taking the blended
integer weights as input: the source converts each category's
matchup_morey_z blend (a real-valued computation) to a u32 weight and then
draws choose_weighted(..).unwrap(); its panic behaviour depends only on the
integer weights, which are here the oracle input. -/
def get_expected_pa (weights : List (Expect × Nat)) (pick : Nat) : Option Expect :=
  choose_weighted weights pick

/-- A batter spray chart whose Out category is present with a single
zero-weight entry. -/
def c8_bat : SprayChart :=
  fun e => if e = Expect.Out then some [(Position.CenterField, 0)] else none

/-- An empty pitcher spray chart. -/
def c8_pit : SprayChart := fun _ => none

/-- C8 counterexample: with the Out category present but carrying an all-zero
weight set, determine_spray does not return the neutral center-field target -
the weighted draw errors and the unwrap panics (none); get_expected_pa
likewise panics when every blended integer weight is zero. -/
theorem c8_counterexample :
    determine_spray c8_bat c8_pit Expect.Out 0 = none ∧
    get_expected_pa [(Expect.Single, 0), (Expect.Out, 0)] 0 = none := by
  constructor <;> rfl

/-- C8 (amended): determine_spray falls back to center field exactly when the
category is absent from the merged chart; a present all-zero weight set makes
the weighted draw fail and the source's unwrap panic (none), and
get_expected_pa panics whenever the blended integer weights sum to zero. -/
theorem c8_zero_weight_panics :
    (∀ (bat pit : SprayChart) (expect : Expect) (pick : Nat),
      merged_spray bat pit expect = none →
        determine_spray bat pit expect pick = some Position.CenterField) ∧
    (∀ (bat pit : SprayChart) (expect : Expect) (pick : Nat)
        (ws : List (Position × Nat)),
      merged_spray bat pit expect = some ws → (ws.map (fun o => o.2)).sum = 0 →
        determine_spray bat pit expect pick = none) ∧
    (∀ (weights : List (Expect × Nat)) (pick : Nat),
      (weights.map (fun o => o.2)).sum = 0 → get_expected_pa weights pick = none) := by
  refine ⟨?_, ?_, ?_⟩
  · intro bat pit expect pick hm
    simp [determine_spray, hm]
  · intro bat pit expect pick ws hm hz
    simp [determine_spray, hm, choose_weighted, hz]
  · intro weights pick hz
    simp [get_expected_pa, choose_weighted, hz]

/-- C8 amended-statement witness: the fallback on an absent category and the
panics on all-zero weight sets, at concrete inputs. -/
theorem c8_zero_weight_panics_witness :
    merged_spray c8_bat c8_pit Expect.Single = none ∧
    determine_spray c8_bat c8_pit Expect.Single 0 = some Position.CenterField ∧
    merged_spray c8_bat c8_pit Expect.Out = some [(Position.CenterField, 0)] ∧
    determine_spray c8_bat c8_pit Expect.Out 3 = none ∧
    get_expected_pa [(Expect.Walk, 0)] 1 = none :=
  ⟨rfl,
    c8_zero_weight_panics.1 c8_bat c8_pit Expect.Single 0 rfl,
    rfl,
    c8_zero_weight_panics.2.1 c8_bat c8_pit Expect.Out 3 [(Position.CenterField, 0)]
      rfl rfl,
    c8_zero_weight_panics.2.2 [(Expect.Walk, 0)] 1 rfl⟩

/-- One scheduled pairing.  Schedule::new builds Game values; only the two
team ids of a Game matter to the generator, so a matchup is the (home, away)
pair. -/
structure Matchup where
  home : TeamId
  away : TeamId
deriving DecidableEq, Repr, Inhabited

/-- The inner loop of Schedule::new's pairing construction: every away
opponent for one home team. -/
def matchups_for (home : TeamId) (teams : List TeamId) : List Matchup :=
  teams.flatMap (fun away => if home ≠ away then [⟨home, away⟩] else [])

/-- The nested loops of Schedule::new (src/schedule.rs lines 346-351): every
ordered (home, away) pair of distinct teams, once. -/
def raw_matchups (teams : List TeamId) : List Matchup :=
  teams.flatMap (fun home => matchups_for home teams)

/-- Vec::position plus Vec::remove as used by the round construction: the
first matchup satisfying p, together with the list without it. -/
def extract_first (p : Matchup → Bool) : List Matchup → Option (Matchup × List Matchup)
  | [] => none
  | m :: ms =>
    if p m then some (m, ms)
    else
      match extract_first p ms with
      | none => none
      | some (g, rest) => some (g, m :: rest)

/-- The inner while of Schedule::new (src/schedule.rs lines 361-370): pop the
next team (the oracle list is already in pop order), take the first remaining
matchup in which it is home against a team still to pick, and repeat;
a popped team with no eligible matchup is simply skipped.  Returns the
remaining raw matchups and the accumulated matchup list. -/
def pick_round : List TeamId → List Matchup → List Matchup → List Matchup × List Matchup
  | [], raw, acc => (raw, acc)
  | team :: rest, raw, acc =>
    match extract_first (fun x => x.home == team && rest.contains x.away) raw with
    | none => pick_round rest raw acc
    | some (game, raw') =>
      let other_team := if game.home == team then game.away else game.home
      pick_round (rest.filter (fun o => o ≠ other_team)) raw' (acc ++ [game])
termination_by toPick _ _ => toPick.length
decreasing_by
  · simp [Nat.lt_succ_iff]
  · simp only [List.length_cons, Nat.lt_succ_iff]
    exact List.length_filter_le _ _

/-- The outer while of Schedule::new (src/schedule.rs lines 357-371): one
round per oracle shuffle of the team list, until the raw matchups are
exhausted; none when the oracle runs out first (the source would keep
reshuffling). -/
def build_matchups : List (List TeamId) → List Matchup → List Matchup →
    Option (List Matchup)
  | _, [], acc => some acc
  | [], _ :: _, _ => none
  | toPick :: shuffles, m :: ms, acc =>
    let res := pick_round toPick (m :: ms) acc
    build_matchups shuffles res.1 res.2

/-- The expansion loop of Schedule::new (src/schedule.rs lines 373-381): for
each chunk of k consecutive matchups, emit the chunk four times.  The source
indexes matchups[idx + offset] for idx stepping by k, which panics when k is
zero (step_by(0)) or when k does not divide the list length (the final chunk
reads past the end); both are modelled as none. -/
def expand_games (k : Nat) (l : List Matchup) : Option (List Matchup) :=
  if k = 0 then none
  else if l = [] then some []
  else if l.length < k then none
  else
    match expand_games k (l.drop k) with
    | none => none
    | some rest => some ((List.replicate 4 (l.take k)).flatten ++ rest)
termination_by l.length
decreasing_by
  simp only [List.length_drop]
  rename_i hk hl _
  have h1 : 0 < l.length := List.length_pos.mpr hl
  have h2 : 0 < k := Nat.pos_of_ne_zero hk
  omega

/-- Schedule::new from src/schedule.rs lines 341-386, with the generator
modelled as oracle inputs: shuffled_raw is the result of shuffling the raw
ordered-pair list (an arbitrary permutation of raw_matchups), and shuffles
holds each round's shuffled team list in pop order. -/
def schedule_new (teams : List TeamId) (shuffled_raw : List Matchup)
    (shuffles : List (List TeamId)) : Option (List Matchup) :=
  match build_matchups shuffles shuffled_raw [] with
  | none => none
  | some matchups => expand_games (teams.length / 2) matchups

/-- The day-groups of a schedule: consecutive blocks of k games. -/
def day_groups (k : Nat) (l : List Matchup) : List (List Matchup) :=
  if k = 0 then []
  else if l = [] then []
  else l.take k :: day_groups k (l.drop k)
termination_by l.length
decreasing_by
  simp only [List.length_drop]
  rename_i hk hl
  have h1 : 0 < l.length := List.length_pos.mpr hl
  have h2 : 0 < k := Nat.pos_of_ne_zero hk
  omega

/-- The two team ids of a matchup. -/
def game_teams (m : Matchup) : List TeamId := [m.home, m.away]

/-- No team id occurs in two different games of one day-group (every game's
own pair being distinct, this is distinctness of all ids in the block). -/
def no_repeat_in_day_groups (k : Nat) (l : List Matchup) : Prop :=
  ∀ ch ∈ day_groups k l, (ch.flatMap game_teams).Nodup

instance (k : Nat) (l : List Matchup) : Decidable (no_repeat_in_day_groups k l) := by
  unfold no_repeat_in_day_groups; infer_instance

theorem extract_first_sat (p : Matchup → Bool) :
    ∀ (l : List Matchup) (g : Matchup) (rest : List Matchup),
      extract_first p l = some (g, rest) → p g = true := by
  intro l
  induction l with
  | nil => intro g rest h; simp [extract_first] at h
  | cons m ms ih =>
    intro g rest h
    by_cases hp : p m
    · simp [extract_first, hp] at h
      rw [← h.1]
      exact hp
    · simp only [extract_first, hp, Bool.false_eq_true, if_false] at h
      cases he : extract_first p ms with
      | none => rw [he] at h; simp at h
      | some pr =>
        rw [he] at h
        simp at h
        exact h.1 ▸ ih pr.1 pr.2 he

theorem extract_first_perm (p : Matchup → Bool) :
    ∀ (l : List Matchup) (g : Matchup) (rest : List Matchup),
      extract_first p l = some (g, rest) → l.Perm (g :: rest) := by
  intro l
  induction l with
  | nil => intro g rest h; simp [extract_first] at h
  | cons m ms ih =>
    intro g rest h
    by_cases hp : p m
    · simp [extract_first, hp] at h
      rw [h.1, h.2]
    · simp only [extract_first, hp, Bool.false_eq_true, if_false] at h
      cases he : extract_first p ms with
      | none => rw [he] at h; simp at h
      | some pr =>
        rw [he] at h
        simp at h
        have hms : ms.Perm (pr.1 :: pr.2) := ih pr.1 pr.2 he
        have hstep : (m :: ms).Perm (pr.1 :: m :: pr.2) :=
          (hms.cons m).trans (List.Perm.swap pr.1 m pr.2)
        rw [h.1, h.2] at hstep
        exact hstep

theorem pick_round_perm (toPick : List TeamId) (raw acc : List Matchup) :
    ((pick_round toPick raw acc).2 ++ (pick_round toPick raw acc).1).Perm (acc ++ raw) := by
  induction toPick, raw, acc using pick_round.induct with
  | case1 raw acc => simp [pick_round]
  | case2 team rest raw acc he ih =>
    simp only [pick_round, he]
    exact ih
  | case3 team rest raw acc game raw' hext other ih =>
    simp only [pick_round, hext]
    have hraw : raw.Perm (game :: raw') := extract_first_perm _ raw game raw' hext
    have h2 : ((acc ++ [game]) ++ raw').Perm (acc ++ raw) := by
      rw [List.append_assoc]
      exact List.Perm.append_left acc hraw.symm
    exact ih.trans h2

theorem build_matchups_perm :
    ∀ (shuffles : List (List TeamId)) (raw acc matchups : List Matchup),
      build_matchups shuffles raw acc = some matchups → matchups.Perm (acc ++ raw) := by
  intro shuffles
  induction shuffles with
  | nil =>
    intro raw acc matchups h
    cases raw with
    | nil =>
      simp only [build_matchups, Option.some.injEq] at h
      rw [← h]
      simp
    | cons m ms => simp [build_matchups] at h
  | cons toPick rest ih =>
    intro raw acc matchups h
    cases raw with
    | nil =>
      simp only [build_matchups, Option.some.injEq] at h
      rw [← h]
      simp
    | cons m ms =>
      simp only [build_matchups] at h
      exact (ih _ _ _ h).trans (pick_round_perm toPick (m :: ms) acc)

theorem expand_games_spec (k : Nat) (hk : k ≠ 0) :
    ∀ (n : Nat) (l : List Matchup), l.length = n → k ∣ l.length →
      ∃ g, expand_games k l = some g ∧ g.length = 4 * l.length ∧
        ∀ x, g.count x = 4 * l.count x := by
  intro n
  induction n using Nat.strong_induction_on with
  | _ n ih =>
    intro l hlen hdvd
    by_cases hl : l = []
    · subst hl
      refine ⟨[], ?_, by simp, by simp⟩
      rw [expand_games]
      simp [hk]
    · have hpos : 0 < l.length := List.length_pos.mpr hl
      have hkle : k ≤ l.length := Nat.le_of_dvd hpos hdvd
      have hnotlt : ¬ l.length < k := not_lt.mpr hkle
      have hdrop : (l.drop k).length = l.length - k := List.length_drop k l
      have hdvd' : k ∣ (l.drop k).length := by
        rw [hdrop]; exact Nat.dvd_sub' hdvd dvd_rfl
      have hkpos : 0 < k := Nat.pos_of_ne_zero hk
      have hlt : (l.drop k).length < n := by omega
      obtain ⟨grest, hg1, hg2, hg3⟩ := ih _ hlt (l.drop k) rfl hdvd'
      have hrep : List.replicate 4 (l.take k) = [l.take k, l.take k, l.take k, l.take k] := rfl
      have htk : (l.take k).length = k := by
        rw [List.length_take]; omega
      have hflat : (List.replicate 4 (l.take k)).flatten
          = l.take k ++ (l.take k ++ (l.take k ++ (l.take k ++ []))) := by
        rw [hrep]
        simp
      refine ⟨(List.replicate 4 (l.take k)).flatten ++ grest, ?_, ?_, ?_⟩
      · rw [expand_games]
        simp [hk, hl, hnotlt, hg1]
      · rw [List.length_append, hg2, hflat]
        simp only [List.length_append, List.length_nil, htk, hdrop]
        omega
      · intro x
        have hsplit : l.count x = (l.take k).count x + (l.drop k).count x := by
          conv_lhs => rw [← List.take_append_drop k l]
          rw [List.count_append]
        rw [List.count_append, hg3, hflat]
        simp only [List.count_append, List.count_nil]
        omega

theorem matchups_for_cons (t u : TeamId) (us : List TeamId) :
    matchups_for t (u :: us)
      = (if t ≠ u then [⟨t, u⟩] else []) ++ matchups_for t us := by
  simp [matchups_for]

theorem count_matchups_for (t h a : TeamId) (hne : h ≠ a) (l : List TeamId) :
    (matchups_for t l).count ⟨h, a⟩ = if t = h then l.count a else 0 := by
  induction l with
  | nil => simp [matchups_for]
  | cons u us ih =>
    rw [matchups_for_cons, List.count_append, ih, List.count_cons]
    by_cases ht : t = h <;> by_cases hu : u = a <;> by_cases htu : t = u <;>
      simp_all [List.count_singleton, beq_iff_eq, Matchup.mk.injEq] <;>
        omega

theorem length_matchups_for_add_count (t : TeamId) (l : List TeamId) :
    (matchups_for t l).length + l.count t = l.length := by
  induction l with
  | nil => simp [matchups_for]
  | cons u us ih =>
    rw [matchups_for_cons, List.length_append, List.count_cons]
    by_cases hut : u = t
    · subst hut
      simp only [ne_eq, not_true, if_neg, List.length_nil, beq_self_eq_true,
        if_true, ite_true]
      simp
      omega
    · have htu : t ≠ u := fun hh => hut hh.symm
      simp [htu, beq_iff_eq, hut]
      omega

theorem count_raw_matchups_aux (hh a : TeamId) (hne : hh ≠ a) (teams : List TeamId) :
    ∀ outer : List TeamId,
      (outer.flatMap (fun home => matchups_for home teams)).count ⟨hh, a⟩
        = outer.count hh * teams.count a := by
  intro outer
  induction outer with
  | nil => simp
  | cons t ts ih =>
    rw [List.flatMap_cons, List.count_append, ih,
      count_matchups_for t hh a hne teams, List.count_cons]
    by_cases ht : t = hh <;> simp [ht] <;> ring

theorem count_raw_matchups (teams : List TeamId) (hh a : TeamId) (hnd : teams.Nodup)
    (hmh : hh ∈ teams) (hma : a ∈ teams) (hne : hh ≠ a) :
    (raw_matchups teams).count ⟨hh, a⟩ = 1 := by
  have h := count_raw_matchups_aux hh a hne teams teams
  rw [show raw_matchups teams = teams.flatMap (fun home => matchups_for home teams)
    from rfl, h, List.count_eq_one_of_mem hnd hmh, List.count_eq_one_of_mem hnd hma]

theorem length_raw_matchups_aux (teams : List TeamId) (hnd : teams.Nodup) :
    ∀ outer : List TeamId, (∀ t ∈ outer, t ∈ teams) →
      (outer.flatMap (fun home => matchups_for home teams)).length
        = outer.length * (teams.length - 1) := by
  intro outer
  induction outer with
  | nil => simp
  | cons t ts ih =>
    intro hsub
    rw [List.flatMap_cons, List.length_append, ih (fun x hx => hsub x (by simp [hx]))]
    have hcnt : teams.count t = 1 :=
      List.count_eq_one_of_mem hnd (hsub t (by simp))
    have hlen := length_matchups_for_add_count t teams
    rw [hcnt] at hlen
    simp only [List.length_cons]
    have hexp : (ts.length + 1) * (teams.length - 1)
        = (teams.length - 1) + ts.length * (teams.length - 1) := by ring
    omega

theorem length_raw_matchups (teams : List TeamId) (hnd : teams.Nodup) :
    (raw_matchups teams).length = teams.length * (teams.length - 1) :=
  length_raw_matchups_aux teams hnd teams (fun _ hx => hx)

/-- C3: for an even number N >= 2 of distinct teams and any generator
behaviour (the shuffled pair list is any permutation of the raw ordered
pairs, the per-round team shuffles are arbitrary), whenever Schedule::new
terminates its games list has exactly N * (N - 1) * 4 entries and every
ordered (home, away) pair of distinct teams occurs exactly 4 times. -/
theorem c3_schedule_counts (teams : List TeamId) (shuffled_raw : List Matchup)
    (shuffles : List (List TeamId)) (games : List Matchup)
    (hnd : teams.Nodup) (h2 : 2 ≤ teams.length) (heven : teams.length % 2 = 0)
    (hperm : shuffled_raw.Perm (raw_matchups teams))
    (hrun : schedule_new teams shuffled_raw shuffles = some games) :
    games.length = teams.length * (teams.length - 1) * 4 ∧
    ∀ hh a, hh ∈ teams → a ∈ teams → hh ≠ a → games.count ⟨hh, a⟩ = 4 := by
  unfold schedule_new at hrun
  cases hb : build_matchups shuffles shuffled_raw [] with
  | none => rw [hb] at hrun; exact absurd hrun (by simp)
  | some matchups =>
    rw [hb] at hrun
    have hm : matchups.Perm (raw_matchups teams) := by
      have h1 := build_matchups_perm shuffles shuffled_raw [] matchups hb
      simpa using h1.trans hperm
    have hlen : matchups.length = teams.length * (teams.length - 1) := by
      rw [hm.length_eq, length_raw_matchups teams hnd]
    have hk0 : teams.length / 2 ≠ 0 := by omega
    have hdvd : (teams.length / 2) ∣ matchups.length := by
      rw [hlen]
      refine ⟨2 * (teams.length - 1), ?_⟩
      have hq : 2 * (teams.length / 2) = teams.length := by omega
      calc teams.length * (teams.length - 1)
          = (2 * (teams.length / 2)) * (teams.length - 1) := by rw [hq]
        _ = teams.length / 2 * (2 * (teams.length - 1)) := by ring
    obtain ⟨g, hg1, hg2, hg3⟩ :=
      expand_games_spec (teams.length / 2) hk0 matchups.length matchups rfl hdvd
    obtain rfl : g = games := Option.some.inj (hg1.symm.trans hrun)
    constructor
    · rw [hg2, hlen]; ring
    · intro hh a hmh hma hne
      rw [hg3, hm.count_eq, count_raw_matchups teams hh a hnd hmh hma hne]

/-- The games of a two-team season as built by the model: each ordered pair
is a one-game round, and each round is replayed four times. -/
def c3_games : List Matchup :=
  [⟨1, 2⟩, ⟨1, 2⟩, ⟨1, 2⟩, ⟨1, 2⟩, ⟨2, 1⟩, ⟨2, 1⟩, ⟨2, 1⟩, ⟨2, 1⟩]

/-- C3 witness: the count statement applied to the concrete two-team run. -/
theorem c3_schedule_counts_witness :
    schedule_new [1, 2] (raw_matchups [1, 2]) [[1, 2], [2, 1]] = some c3_games ∧
    c3_games.length = 2 * (2 - 1) * 4 ∧
    c3_games.count ⟨1, 2⟩ = 4 ∧ c3_games.count ⟨2, 1⟩ = 4 := by
  have hrun : schedule_new [1, 2] (raw_matchups [1, 2]) [[1, 2], [2, 1]]
      = some c3_games := by
    simp [schedule_new, build_matchups, pick_round, extract_first, expand_games,
      raw_matchups, matchups_for, c3_games]
  have h := c3_schedule_counts [1, 2] (raw_matchups [1, 2]) [[1, 2], [2, 1]] c3_games
    (by decide) (by decide) (by decide) (List.Perm.refl _) hrun
  exact ⟨hrun, h.1, h.2 1 2 (by decide) (by decide) (by decide),
    h.2 2 1 (by decide) (by decide) (by decide)⟩

/-- Four distinct teams. -/
def c7_teams : List TeamId := [1, 2, 3, 4]

/-- A realisable sequence of round shuffles (each a permutation of the four
teams, in pop order) under which the round construction produces three full
rounds, an empty round, a one-game round, two full rounds and two one-game
rounds, so that round boundaries fall out of step with the N/2-sized
day-groups. -/
def c7_shuffles : List (List TeamId) :=
  [[1, 3, 4, 2], [1, 2, 4, 3], [1, 2, 3, 4], [1, 2, 3, 4],
    [2, 3, 4, 1], [3, 4, 1, 2], [4, 3, 1, 2], [4, 3, 1, 2]]

/-- The games Schedule::new returns under the trace above. -/
def c7_games : List Matchup :=
  [⟨1, 2⟩, ⟨3, 4⟩, ⟨1, 2⟩, ⟨3, 4⟩, ⟨1, 2⟩, ⟨3, 4⟩, ⟨1, 2⟩, ⟨3, 4⟩,
    ⟨1, 3⟩, ⟨2, 4⟩, ⟨1, 3⟩, ⟨2, 4⟩, ⟨1, 3⟩, ⟨2, 4⟩, ⟨1, 3⟩, ⟨2, 4⟩,
    ⟨1, 4⟩, ⟨2, 3⟩, ⟨1, 4⟩, ⟨2, 3⟩, ⟨1, 4⟩, ⟨2, 3⟩, ⟨1, 4⟩, ⟨2, 3⟩,
    ⟨2, 1⟩, ⟨3, 1⟩, ⟨2, 1⟩, ⟨3, 1⟩, ⟨2, 1⟩, ⟨3, 1⟩, ⟨2, 1⟩, ⟨3, 1⟩,
    ⟨4, 2⟩, ⟨4, 1⟩, ⟨4, 2⟩, ⟨4, 1⟩, ⟨4, 2⟩, ⟨4, 1⟩, ⟨4, 2⟩, ⟨4, 1⟩,
    ⟨3, 2⟩, ⟨4, 3⟩, ⟨3, 2⟩, ⟨4, 3⟩, ⟨3, 2⟩, ⟨4, 3⟩, ⟨3, 2⟩, ⟨4, 3⟩]

/-- C7 counterexample: a schedule actually returned by the model of
Schedule::new for four distinct teams (under realisable shuffle outputs) in
which a day-group - a consecutive block of N/2 = 2 games - contains team 1 in
both of its games: short rounds shift the later rounds out of phase with the
fixed-size day-groups. -/
theorem c7_counterexample :
    c7_teams.Nodup ∧
    (∀ s ∈ c7_shuffles, s.Perm c7_teams) ∧
    schedule_new c7_teams (raw_matchups c7_teams) c7_shuffles = some c7_games ∧
    [(⟨2, 1⟩ : Matchup), ⟨3, 1⟩] ∈ day_groups 2 c7_games ∧
    (⟨2, 1⟩ : Matchup) ≠ ⟨3, 1⟩ ∧
    1 ∈ game_teams ⟨2, 1⟩ ∧ 1 ∈ game_teams ⟨3, 1⟩ ∧
    ¬ no_repeat_in_day_groups 2 c7_games := by
  have hmem : [(⟨2, 1⟩ : Matchup), ⟨3, 1⟩] ∈ day_groups 2 c7_games := by
    simp [day_groups, c7_games]
  refine ⟨by decide, by decide, ?_, hmem, by decide, by decide, by decide, ?_⟩
  · simp [schedule_new, build_matchups, pick_round, extract_first, expand_games,
      raw_matchups, matchups_for, c7_teams, c7_shuffles, c7_games]
  · intro hrep
    have hnd := hrep _ hmem
    exact absurd hnd (by decide)

theorem pick_round_teams_nodup :
    ∀ (n : Nat) (toPick : List TeamId), toPick.length = n →
      ∀ (raw acc : List Matchup),
      toPick.Nodup → (acc.flatMap game_teams).Nodup →
      (∀ x ∈ acc.flatMap game_teams, x ∉ toPick) →
      (((pick_round toPick raw acc).2).flatMap game_teams).Nodup := by
  intro n
  induction n using Nat.strong_induction_on with
  | _ n ih =>
    intro toPick hlen raw acc hnd hacc hdisj
    cases toPick with
    | nil => simpa [pick_round] using hacc
    | cons team rest =>
      cases hext : extract_first (fun x => x.home == team && rest.contains x.away) raw with
      | none =>
        simp only [pick_round, hext]
        have hmlt : rest.length < n := by
          simp only [List.length_cons] at hlen
          omega
        exact ih rest.length hmlt rest rfl raw acc hnd.of_cons hacc
          (fun x hx hmem => hdisj x hx (List.mem_cons_of_mem _ hmem))
      | some pr =>
        obtain ⟨game, raw'⟩ := pr
        simp only [pick_round, hext]
        have hp := extract_first_sat _ raw game raw' hext
        rw [Bool.and_eq_true] at hp
        have hhome : game.home = team := beq_iff_eq.mp hp.1
        have haway : game.away ∈ rest := List.elem_iff.mp hp.2
        have hite : (if game.home == team then game.away else game.home)
            = game.away := if_pos hp.1
        simp only [hite]
        have hmlt : (rest.filter (fun o => o ≠ game.away)).length < n := by
          have hfle := List.length_filter_le (fun o => decide (o ≠ game.away)) rest
          simp only [List.length_cons] at hlen
          omega
        have hteam_notin : team ∉ rest := (List.nodup_cons.mp hnd).1
        refine ih _ hmlt _ rfl raw' (acc ++ [game]) (hnd.of_cons.filter _) ?_ ?_
        · rw [List.flatMap_append]
          refine List.Nodup.append hacc ?_ ?_
          · simp only [List.flatMap_cons, List.flatMap_nil, List.append_nil,
              game_teams, hhome]
            simp only [List.nodup_cons, List.mem_singleton, List.not_mem_nil,
              not_false_iff, List.nodup_nil, and_true]
            exact fun heq => hteam_notin (heq ▸ haway)
          · intro x hxa hxg
            simp only [List.flatMap_cons, List.flatMap_nil, List.append_nil,
              game_teams, hhome, List.mem_cons, List.mem_singleton,
              List.not_mem_nil, or_false] at hxg
            rcases hxg with h1 | h2
            · exact hdisj x hxa (by rw [h1]; exact List.mem_cons_self _ _)
            · exact hdisj x hxa (by rw [h2]; exact List.mem_cons_of_mem _ haway)
        · intro x hx hmemf
          have hmem : x ∈ rest := List.mem_of_mem_filter hmemf
          have hxne : x ≠ game.away := by simpa using List.of_mem_filter hmemf
          rw [List.flatMap_append] at hx
          rcases List.mem_append.mp hx with hxa | hxg
          · exact hdisj x hxa (List.mem_cons_of_mem _ hmem)
          · simp only [List.flatMap_cons, List.flatMap_nil, List.append_nil,
              game_teams, hhome, List.mem_cons, List.mem_singleton,
              List.not_mem_nil, or_false] at hxg
            rcases hxg with rfl | rfl
            · exact hteam_notin hmem
            · exact hxne rfl

/-- The games selected during one round of the construction. -/
def round_games (toPick : List TeamId) (raw : List Matchup) : List Matchup :=
  (pick_round toPick raw []).2

/-- C7 (amended): within one round of the round-construction loop no team
appears twice - the games picked during a single round carry pairwise
distinct team ids, provided the round's shuffled team list has no
duplicates.  The claim as stated fails for day-groups because a round may
end up shorter than N/2 games, shifting later rounds out of phase with the
fixed N/2-game day-group blocks (see the counterexample). -/
theorem c7_round_no_repeat (toPick : List TeamId) (raw : List Matchup)
    (hnd : toPick.Nodup) :
    ((round_games toPick raw).flatMap game_teams).Nodup :=
  pick_round_teams_nodup toPick.length toPick rfl raw [] hnd (by simp)
    (by simp)

/-- C7 witness: the first round of the four-team schedule above. -/
theorem c7_round_no_repeat_witness :
    ([1, 2, 3, 4] : List TeamId).Nodup ∧
    ((round_games [1, 2, 3, 4] (raw_matchups [1, 2, 3, 4])).flatMap
      game_teams).Nodup :=
  ⟨by decide, c7_round_no_repeat [1, 2, 3, 4] (raw_matchups [1, 2, 3, 4]) (by decide)⟩

end Imp019
